import Mathlib

/-!
Verification of the DeepX subdomain-enumeration tool.

Each section shallowly embeds one component of the Python source
(`handlers/comparison.py`, `collectors/fofa.py`, `cacher/dict_builder.py`,
`cacher/manager.py`, `core/bruteforcer.py`, `utils/alivecheck.py`) as
executable Lean definitions, and proves or refutes the documented
properties of that component.  File-system and network effects are made
explicit: a file is an `Option` of its line list, a network fetch is an
oracle function passed as an argument.
-/

namespace DeepX

/-! ## Set reconciliation (`handlers/comparison.py`) -/

/-- One persisted result file: `none` models a missing or unreadable file,
`some lines` the list of raw text lines of an existing file. -/
abbrev FileLines := Option (List String)

/-- Model of `ComparisonHandler._read_domains_from_file`: a missing file yields the
empty set; otherwise each line is stripped and non-empty lines are collected
into a set (duplicates collapse). -/
def read_domains_from_file (file : FileLines) : Finset String :=
  match file with
  | none => ∅
  | some lines => ((lines.map String.trim).filter (fun d => d ≠ "")).toFinset

/-- The value returned by `ComparisonHandler.compare_domains`:
the hidden-domain set and the total-asset set. -/
structure ComparisonResult where
  hidden : Finset String
  total : Finset String
deriving DecidableEq

/-- Core set algebra of `ComparisonHandler.compare_domains` (lines 110–113):
`hidden = (deep ∪ brute) - fofa`, `total = deep ∪ fofa ∪ brute`. -/
def compare_sets (deep fofa brute : Finset String) : ComparisonResult :=
  { hidden := (deep ∪ brute) \ fofa
    total := deep ∪ fofa ∪ brute }

/-- Model of `ComparisonHandler.compare_domains`: reads the three source files
(missing files degrade to empty sets) and computes the comparison result. -/
def compare_domains (deepFile fofaFile bruteFile : FileLines) : ComparisonResult :=
  compare_sets (read_domains_from_file deepFile) (read_domains_from_file fofaFile)
    (read_domains_from_file bruteFile)

/-- C1: for all domain sets `deep, fofa, brute` read by `compare_domains`
(including sets degraded to `∅` by missing or unreadable files), the returned
hidden set equals `(deep ∪ brute) − fofa`, the returned total set equals
`deep ∪ fofa ∪ brute`, and consequently `hidden ⊆ total` and
`hidden ∩ fofa = ∅`. -/
theorem compare_domains_set_algebra (deepFile fofaFile bruteFile : FileLines) :
    (compare_domains deepFile fofaFile bruteFile).hidden =
      (read_domains_from_file deepFile ∪ read_domains_from_file bruteFile) \
        read_domains_from_file fofaFile ∧
    (compare_domains deepFile fofaFile bruteFile).total =
      read_domains_from_file deepFile ∪ read_domains_from_file fofaFile ∪
        read_domains_from_file bruteFile ∧
    (compare_domains deepFile fofaFile bruteFile).hidden ⊆
      (compare_domains deepFile fofaFile bruteFile).total ∧
    (compare_domains deepFile fofaFile bruteFile).hidden ∩
      read_domains_from_file fofaFile = ∅ := by
  set deep := read_domains_from_file deepFile
  set fofa := read_domains_from_file fofaFile
  set brute := read_domains_from_file bruteFile
  refine ⟨rfl, rfl, ?_, ?_⟩
  · intro d hd
    simp only [compare_domains, compare_sets, Finset.mem_sdiff, Finset.mem_union] at hd ⊢
    rcases hd with ⟨hd | hb, _⟩
    · exact Or.inl (Or.inl hd)
    · exact Or.inr hb
  · ext d
    simp only [compare_domains, compare_sets, Finset.mem_inter, Finset.mem_sdiff,
      Finset.not_mem_empty, iff_false, not_and]
    intro ⟨_, hnf⟩ hf
    exact hnf hf

/-! ## Cache store (`cacher/manager.py`) -/

/-- A parsed cache snapshot.  JSON field lookups in the source use defaults
(`cache_data.get('timestamp', 0)`, `cache_data.get('deep_domains', [])`,
`cache_data.get('fofa_domains', [])`), so a successfully parsed snapshot
always provides all three values. -/
structure CacheSnapshot where
  timestamp : ℚ
  deep_domains : List String
  fofa_domains : List String

/-- The newest cache file for a domain, as seen by the cache manager:
`none` when no cache file matches the domain, `some none` when the newest
matching file cannot be read or parsed, `some (some snap)` when it parses. -/
abbrev NewestCacheFile := Option (Option CacheSnapshot)

/-- Model of `CacheManager.has_valid_cache` (lines 100–136): false when caching is
disabled or no cache file exists or the newest file fails to load; otherwise
the cache is valid iff `now - timestamp` does not exceed
`expire_days * 86400` seconds. -/
def has_valid_cache (disableCache : Bool) (newest : NewestCacheFile)
    (now expireDays : ℚ) : Bool :=
  if disableCache then false
  else
    match newest with
    | none => false
    | some none => false
    | some (some snap) =>
      if now - snap.timestamp > expireDays * 86400 then false else true

/-- Model of `CacheManager.get_cached_domains` (lines 189–224), returned as an
association list so that the exact key set of the Python dict is visible:
every path yields exactly the keys `"deep"` and `"fofa"`; an invalid,
missing, or unparseable newest snapshot yields two empty sets. -/
def get_cached_domains (disableCache : Bool) (newest : NewestCacheFile)
    (now expireDays : ℚ) : List (String × Finset String) :=
  if ¬ has_valid_cache disableCache newest now expireDays then
    [("deep", ∅), ("fofa", ∅)]
  else
    match newest with
    | none => [("deep", ∅), ("fofa", ∅)]
    | some none => [("deep", ∅), ("fofa", ∅)]
    | some (some snap) =>
      [("deep", snap.deep_domains.toFinset), ("fofa", snap.fofa_domains.toFinset)]

/-- C4: `has_valid_cache` returns true only if the newest snapshot exists,
parses, and satisfies `now - timestamp ≤ expire_days * 86400`; a snapshot
whose timestamp is `now - (expire_days*86400 - 1)` is valid (cache enabled),
and one at `now - (expire_days*86400 + 1)` is invalid. -/
theorem has_valid_cache_freshness (disableCache : Bool) (newest : NewestCacheFile)
    (now expireDays : ℚ) :
    (has_valid_cache disableCache newest now expireDays = true →
      ∃ snap, newest = some (some snap) ∧
        now - snap.timestamp ≤ expireDays * 86400) ∧
    (∀ deep fofa, has_valid_cache false
        (some (some ⟨now - (expireDays * 86400 - 1), deep, fofa⟩)) now expireDays = true) ∧
    (∀ deep fofa, has_valid_cache false
        (some (some ⟨now - (expireDays * 86400 + 1), deep, fofa⟩)) now expireDays = false) := by
  refine ⟨?_, ?_, ?_⟩
  · intro h
    match hd : disableCache, hn : newest with
    | true, _ => simp [has_valid_cache] at h
    | false, none => simp [has_valid_cache] at h
    | false, some none => simp [has_valid_cache] at h
    | false, some (some snap) =>
      refine ⟨snap, rfl, ?_⟩
      by_contra hgt
      push_neg at hgt
      simp [has_valid_cache, hgt] at h
  · intro deep fofa
    have : ¬ (now - (now - (expireDays * 86400 - 1)) > expireDays * 86400) := by
      push_neg; linarith
    simp [has_valid_cache, this]
  · intro deep fofa
    have : now - (now - (expireDays * 86400 + 1)) > expireDays * 86400 := by linarith
    simp [has_valid_cache, this]

/-- Closed instance of `has_valid_cache_freshness`: with `now = 1000000` and
`expire_days = 3`, a snapshot aged `3*86400 - 1` seconds is reported valid,
one aged `3*86400 + 1` seconds is not, and validity of the former entails
that it parses and is within the expiry window. -/
theorem has_valid_cache_freshness_witness :
    has_valid_cache false (some (some ⟨1000000 - (3 * 86400 - 1), [], []⟩)) 1000000 3 = true ∧
    has_valid_cache false (some (some ⟨1000000 - (3 * 86400 + 1), [], []⟩)) 1000000 3 = false ∧
    ∃ snap, (some (some ⟨1000000 - (3 * 86400 - 1), [], []⟩) : NewestCacheFile) =
        some (some snap) ∧ (1000000 : ℚ) - snap.timestamp ≤ 3 * 86400 := by
  refine ⟨(has_valid_cache_freshness false none 1000000 3).2.1 [] [],
    (has_valid_cache_freshness false none 1000000 3).2.2 [] [],
    (has_valid_cache_freshness false (some (some ⟨1000000 - (3 * 86400 - 1), [], []⟩))
      1000000 3).1 ?_⟩
  exact (has_valid_cache_freshness false none 1000000 3).2.1 [] []

/-- C10: `get_cached_domains` is total at its interface: every call returns
an association list whose key list is exactly `["deep", "fofa"]`, with set
values; whenever no valid cache exists, or the newest snapshot is missing or
unparseable, both sets are empty. -/
theorem get_cached_domains_total (disableCache : Bool) (newest : NewestCacheFile)
    (now expireDays : ℚ) :
    (get_cached_domains disableCache newest now expireDays).map Prod.fst =
      ["deep", "fofa"] ∧
    (has_valid_cache disableCache newest now expireDays = false →
      get_cached_domains disableCache newest now expireDays =
        [("deep", ∅), ("fofa", ∅)]) ∧
    ((newest = none ∨ newest = some none) →
      get_cached_domains disableCache newest now expireDays =
        [("deep", ∅), ("fofa", ∅)]) := by
  refine ⟨?_, ?_, ?_⟩
  · unfold get_cached_domains
    split
    · rfl
    · match newest with
      | none => rfl
      | some none => rfl
      | some (some snap) => rfl
  · intro h
    simp [get_cached_domains, h]
  · rintro (rfl | rfl) <;> simp [get_cached_domains, has_valid_cache]

/-- Closed instance of `get_cached_domains_total`: with caching disabled the
call still returns exactly the two keys, both mapped to the empty set. -/
theorem get_cached_domains_total_witness :
    get_cached_domains true none 0 3 = [("deep", ∅), ("fofa", ∅)] :=
  (get_cached_domains_total true none 0 3).2.1 rfl

/-! ## Adaptive brute-forcer rate control (`core/bruteforcer.py`) -/

/-- The rate-control state of `SmartBruteForcer`: the configured target rate
(`self._target_rate`, fixed at construction) and the current allowed rate
(`self._current_rate`, initially equal to the target rate).  Python float
arithmetic is embedded as exact rational arithmetic. -/
structure RateState where
  targetRate : ℚ
  currentRate : ℚ

/-- Model of `SmartBruteForcer._increase_rate` (lines 185–190): when below twice the
target rate, multiply the current rate by 1.1, capped at twice the target. -/
def increase_rate (s : RateState) : RateState :=
  if s.currentRate < s.targetRate * 2 then
    { s with currentRate := min (s.currentRate * (11 / 10)) (s.targetRate * 2) }
  else s

/-- Model of `SmartBruteForcer._decrease_rate` (lines 192–197): when above a tenth of
the target rate, multiply the current rate by 0.8, floored at a tenth of the
target. -/
def decrease_rate (s : RateState) : RateState :=
  if s.currentRate > s.targetRate * (1 / 10) then
    { s with currentRate := max (s.currentRate * (4 / 5)) (s.targetRate * (1 / 10)) }
  else s

/-- One rate-adjustment event as triggered by `check_subdomain`:
`true` for the 10-consecutive-success increase, `false` for the
3-consecutive-timeout decrease. -/
def rate_step (s : RateState) (up : Bool) : RateState :=
  if up then increase_rate s else decrease_rate s

/-- A run of rate-adjustment events applied in order. -/
def rate_run (s : RateState) (events : List Bool) : RateState :=
  events.foldl rate_step s

/-- Adjustment events never change the configured target rate. -/
theorem rate_step_target (s : RateState) (up : Bool) :
    (rate_step s up).targetRate = s.targetRate := by
  cases up <;> simp only [rate_step, increase_rate, decrease_rate,
    if_true, Bool.false_eq_true, if_false] <;> split <;> rfl

/-- A decrease from a current rate at or above one eighth of the target rate
lands exactly on 80% of the current rate (the floor does not engage). -/
theorem decrease_rate_eq (t c : ℚ) (ht : 0 < t) (hc : t * (1 / 8) ≤ c) :
    decrease_rate ⟨t, c⟩ = ⟨t, c * (4 / 5)⟩ := by
  have hguard : ((⟨t, c⟩ : RateState).currentRate > (⟨t, c⟩ : RateState).targetRate * (1 / 10)) := by
    show c > t * (1 / 10); nlinarith
  unfold decrease_rate
  rw [if_pos hguard]
  have hmax : max (c * (4 / 5)) (t * (1 / 10)) = c * (4 / 5) :=
    max_eq_left (by nlinarith)
  rw [hmax]

/-- An increase whose 10%-bumped value stays at or below twice the target
rate lands exactly on 110% of the current rate (the cap does not engage). -/
theorem increase_rate_eq (t c : ℚ) (hc : c < t * 2)
    (hcap : c * (11 / 10) ≤ t * 2) :
    increase_rate ⟨t, c⟩ = ⟨t, c * (11 / 10)⟩ := by
  have hguard : ((⟨t, c⟩ : RateState).currentRate < (⟨t, c⟩ : RateState).targetRate * 2) := hc
  unfold increase_rate
  rw [if_pos hguard]
  have hmin : min (c * (11 / 10)) (t * 2) = c * (11 / 10) := min_eq_left hcap
  rw [hmin]

/-- One adjustment event keeps the current rate within
`[target/10, 2*target]`. -/
theorem rate_step_bounds (s : RateState) (up : Bool) (ht : 0 < s.targetRate)
    (hlo : s.targetRate * (1 / 10) ≤ s.currentRate)
    (hhi : s.currentRate ≤ s.targetRate * 2) :
    s.targetRate * (1 / 10) ≤ (rate_step s up).currentRate ∧
      (rate_step s up).currentRate ≤ s.targetRate * 2 := by
  cases up
  · show s.targetRate * (1 / 10) ≤ (decrease_rate s).currentRate ∧
      (decrease_rate s).currentRate ≤ s.targetRate * 2
    unfold decrease_rate
    split
    · refine ⟨le_max_right _ _, max_le (by nlinarith) (by nlinarith)⟩
    · exact ⟨hlo, hhi⟩
  · show s.targetRate * (1 / 10) ≤ (increase_rate s).currentRate ∧
      (increase_rate s).currentRate ≤ s.targetRate * 2
    unfold increase_rate
    split
    · exact ⟨le_min (by nlinarith) (by nlinarith), min_le_right _ _⟩
    · exact ⟨hlo, hhi⟩

/-- C5: with the current rate initialised to the configured target rate
`t > 0`: (a) each of three consecutive timeout-triggered decreases lowers the
allowed rate by exactly 20% — to `0.8t`, `0.64t`, `0.512t`, each step a
strict decrease — and the rate stays at or above `0.1t`; (b) a
success-triggered increase from the initial state raises the rate by exactly
10% to `1.1t`, which does not exceed `2t`; (c) under every sequence of
increase/decrease events the current rate remains in `[0.1t, 2t]`. -/
theorem brute_rate_envelope (t : ℚ) (ht : 0 < t) :
    (let s0 : RateState := ⟨t, t⟩
     let s1 := decrease_rate s0
     let s2 := decrease_rate s1
     let s3 := decrease_rate s2
     s1.currentRate = t * (4 / 5) ∧
     s2.currentRate = t * (4 / 5) * (4 / 5) ∧
     s3.currentRate = t * (4 / 5) * (4 / 5) * (4 / 5) ∧
     s1.currentRate < s0.currentRate ∧ s2.currentRate < s1.currentRate ∧
     s3.currentRate < s2.currentRate ∧
     t * (1 / 10) ≤ s3.currentRate) ∧
    ((increase_rate ⟨t, t⟩).currentRate = t * (11 / 10) ∧
      t < (increase_rate ⟨t, t⟩).currentRate ∧
      (increase_rate ⟨t, t⟩).currentRate ≤ t * 2) ∧
    (∀ events : List Bool,
      t * (1 / 10) ≤ (rate_run ⟨t, t⟩ events).currentRate ∧
        (rate_run ⟨t, t⟩ events).currentRate ≤ t * 2) := by
  have hs1 : decrease_rate ⟨t, t⟩ = ⟨t, t * (4 / 5)⟩ :=
    decrease_rate_eq t t ht (by nlinarith)
  have hs2 : decrease_rate ⟨t, t * (4 / 5)⟩ = ⟨t, t * (4 / 5) * (4 / 5)⟩ :=
    decrease_rate_eq t (t * (4 / 5)) ht (by nlinarith)
  have hs3 : decrease_rate ⟨t, t * (4 / 5) * (4 / 5)⟩ =
      ⟨t, t * (4 / 5) * (4 / 5) * (4 / 5)⟩ :=
    decrease_rate_eq t (t * (4 / 5) * (4 / 5)) ht (by nlinarith)
  refine ⟨?_, ?_, ?_⟩
  · simp only [hs1, hs2, hs3]
    refine ⟨trivial, trivial, trivial, ?_, ?_, ?_, ?_⟩ <;> nlinarith
  · have hinc : increase_rate ⟨t, t⟩ = ⟨t, t * (11 / 10)⟩ :=
      increase_rate_eq t t (by nlinarith) (by nlinarith)
    rw [hinc]
    refine ⟨rfl, ?_, ?_⟩ <;> show _ <;> nlinarith
  · intro events
    suffices h : ∀ (evs : List Bool) (s : RateState), s.targetRate = t →
        t * (1 / 10) ≤ s.currentRate → s.currentRate ≤ t * 2 →
        t * (1 / 10) ≤ (rate_run s evs).currentRate ∧
          (rate_run s evs).currentRate ≤ t * 2 by
      exact h events ⟨t, t⟩ rfl (by nlinarith) (by nlinarith)
    intro evs
    induction evs with
    | nil => intro s _ hlo hhi; exact ⟨hlo, hhi⟩
    | cons e rest ih =>
      intro s hst hlo hhi
      have hb := rate_step_bounds s e (by rw [hst]; exact ht)
        (by rw [hst]; exact hlo) (by rw [hst]; exact hhi)
      rw [hst] at hb
      have hstep : (rate_step s e).targetRate = t := by
        rw [rate_step_target, hst]
      have hrun : rate_run s (e :: rest) = rate_run (rate_step s e) rest := rfl
      rw [hrun]
      exact ih (rate_step s e) hstep hb.1 hb.2

/-- Closed instance of `brute_rate_envelope` at `t = 10`: three decreases
reach exactly `8`, `6.4`, `5.12` requests/second (all at least `1`), one
increase reaches `11` (at most `20`), and a mixed event run stays within
`[1, 20]`. -/
theorem brute_rate_envelope_witness :
    (decrease_rate ⟨10, 10⟩).currentRate = 10 * (4 / 5) ∧
    (increase_rate ⟨10, 10⟩).currentRate = 10 * (11 / 10) ∧
    (10 : ℚ) * (1 / 10) ≤ (rate_run ⟨10, 10⟩ [false, false, true, false]).currentRate ∧
    (rate_run ⟨10, 10⟩ [false, false, true, false]).currentRate ≤ 10 * 2 := by
  refine ⟨(brute_rate_envelope 10 (by norm_num)).1.1,
    (brute_rate_envelope 10 (by norm_num)).2.1.1,
    ((brute_rate_envelope 10 (by norm_num)).2.2 [false, false, true, false]).1,
    ((brute_rate_envelope 10 (by norm_num)).2.2 [false, false, true, false]).2⟩

/-! ## Liveness checker (`utils/alivecheck.py`) -/

/-- An HTTP response as observed by `AliveChecker.check_domain_alive` for one
protocol attempt: status code, final URL after redirects, response time, and
the already-derived title and content length (body parsing is performed by
the HTTP layer, which the probe oracle abstracts). -/
structure HttpResponse where
  status : ℕ
  finalUrl : String
  responseTime : ℚ
  title : Option String
  contentLength : ℕ
deriving DecidableEq

/-- The `AliveResult` dataclass of `utils/alivecheck.py` (the fields the
checker fills in). -/
structure AliveResult where
  domain : String
  url : String
  is_alive : Bool
  status_code : Option ℕ
  title : Option String
  content_length : Option ℕ
  response_time : Option ℚ
  final_url : Option String
  protocol : String
  error : Option String
deriving DecidableEq

/-- The protocol loop of `AliveChecker.check_domain_alive` (lines 78–152):
try each protocol in order; an exception (`probe = none`) moves on to the
next protocol; a response whose status lies in `[100, 600)` ends the loop
with an alive result carrying that response's metadata; an out-of-range
status also falls through to the next protocol. -/
def check_loop (domain : String) (probe : String → Option HttpResponse) :
    List String → Option AliveResult
  | [] => none
  | proto :: rest =>
    match probe proto with
    | none => check_loop domain probe rest
    | some r =>
      if 100 ≤ r.status ∧ r.status < 600 then
        some { domain := domain
               url := proto ++ "://" ++ domain
               is_alive := true
               status_code := some r.status
               title := r.title
               content_length := some r.contentLength
               response_time := some r.responseTime
               final_url := some r.finalUrl
               protocol := proto
               error := none }
      else check_loop domain probe rest

/-- Model of `AliveChecker.check_domain_alive` (lines 67–161) for a non-empty
protocol list `p0 :: rest`: run the protocol loop; if every protocol fails,
return a not-alive result naming the first configured protocol and an error
note. -/
def check_domain_alive (domain : String) (probe : String → Option HttpResponse)
    (p0 : String) (rest : List String) : AliveResult :=
  match check_loop domain probe (p0 :: rest) with
  | some res => res
  | none =>
    { domain := domain
      url := p0 ++ "://" ++ domain
      is_alive := false
      status_code := none
      title := none
      content_length := none
      response_time := none
      final_url := none
      protocol := p0
      error := some "all protocol attempts failed" }

/-- Value of `Config.ALIVE_PROTOCOLS` (`config/config.py` line 78). -/
def alive_protocols : List String := ["https", "http"]

/-- If no protocol in the list yields an in-range response, the loop finds
nothing. -/
theorem check_loop_none (domain : String) (probe : String → Option HttpResponse)
    (protocols : List String)
    (hfail : ∀ p ∈ protocols, probe p = none) :
    check_loop domain probe protocols = none := by
  induction protocols with
  | nil => rfl
  | cons q qs ih =>
    have hq : probe q = none := hfail q (List.mem_cons_self q qs)
    simp only [check_loop, hq]
    exact ih (fun p hp => hfail p (List.mem_cons_of_mem q hp))

/-- The loop skips every leading protocol that raises or returns an
out-of-range status. -/
theorem check_loop_skip (domain : String) (probe : String → Option HttpResponse)
    (pre post : List String)
    (hpre : ∀ q ∈ pre, probe q = none ∨
      ∃ r, probe q = some r ∧ ¬(100 ≤ r.status ∧ r.status < 600)) :
    check_loop domain probe (pre ++ post) = check_loop domain probe post := by
  induction pre with
  | nil => rfl
  | cons q qs ih =>
    rcases hpre q (List.mem_cons_self q qs) with hq | ⟨r, hq, hr⟩
    · simp only [List.cons_append, check_loop, hq]
      exact ih (fun p hp => hpre p (List.mem_cons_of_mem q hp))
    · simp only [List.cons_append, check_loop, hq, if_neg hr]
      exact ih (fun p hp => hpre p (List.mem_cons_of_mem q hp))

/-- C8: protocols are tried in the configured order (default `https` before
`http`).  (a) If every protocol preceding `p` yields no response or an
out-of-range status, and `p` yields a response with status in `[100, 600)`,
the checker stops at `p` and returns an alive result carrying that
response's status, title, content length, response time, and final URL.
(b) If no protocol yields any response, the result is not-alive with an
error note, attributed to the first configured protocol. -/
theorem check_domain_alive_protocol_order (domain : String)
    (probe : String → Option HttpResponse) (p0 : String) (rest : List String) :
    (∀ (pre post : List String) (p : String) (r : HttpResponse),
      p0 :: rest = pre ++ p :: post →
      (∀ q ∈ pre, probe q = none ∨
        ∃ r', probe q = some r' ∧ ¬(100 ≤ r'.status ∧ r'.status < 600)) →
      probe p = some r → 100 ≤ r.status → r.status < 600 →
      check_domain_alive domain probe p0 rest =
        { domain := domain
          url := p ++ "://" ++ domain
          is_alive := true
          status_code := some r.status
          title := r.title
          content_length := some r.contentLength
          response_time := some r.responseTime
          final_url := some r.finalUrl
          protocol := p
          error := none }) ∧
    ((∀ q ∈ p0 :: rest, probe q = none) →
      check_domain_alive domain probe p0 rest =
        { domain := domain
          url := p0 ++ "://" ++ domain
          is_alive := false
          status_code := none
          title := none
          content_length := none
          response_time := none
          final_url := none
          protocol := p0
          error := some "all protocol attempts failed" }) ∧
    alive_protocols = ["https", "http"] := by
  refine ⟨?_, ?_, rfl⟩
  · intro pre post p r hsplit hpre hp hlo hhi
    unfold check_domain_alive
    rw [hsplit, check_loop_skip domain probe pre (p :: post) hpre]
    simp only [check_loop, hp]
    rw [if_pos ⟨hlo, hhi⟩]
  · intro hfail
    unfold check_domain_alive
    rw [check_loop_none domain probe (p0 :: rest) hfail]

/-- Closed instance of `check_domain_alive_protocol_order`: a host whose
`https` probe raises and whose `http` probe answers 503 is reported alive on
`http` with the 503 response's metadata; a host that never answers is
reported not-alive on `https`. -/
theorem check_domain_alive_protocol_order_witness :
    check_domain_alive "x.example.com"
        (fun p => if p = "http" then
          some ⟨503, "http://x.example.com/", 1, none, 0⟩ else none)
        "https" ["http"] =
      { domain := "x.example.com"
        url := "http://x.example.com"
        is_alive := true
        status_code := some 503
        title := none
        content_length := some 0
        response_time := some 1
        final_url := some "http://x.example.com/"
        protocol := "http"
        error := none } ∧
    check_domain_alive "y.example.com" (fun _ => none) "https" ["http"] =
      { domain := "y.example.com"
        url := "https://y.example.com"
        is_alive := false
        status_code := none
        title := none
        content_length := none
        response_time := none
        final_url := none
        protocol := "https"
        error := some "all protocol attempts failed" } := by
  constructor
  · exact (check_domain_alive_protocol_order "x.example.com"
      (fun p => if p = "http" then
        some ⟨503, "http://x.example.com/", 1, none, 0⟩ else none)
      "https" ["http"]).1 ["https"] [] "http"
      ⟨503, "http://x.example.com/", 1, none, 0⟩ rfl
      (by intro q hq
          simp only [List.mem_singleton] at hq
          subst hq
          left
          decide)
      (by decide) (by decide) (by decide)
  · exact (check_domain_alive_protocol_order "y.example.com" (fun _ => none)
      "https" ["http"]).2.1 (fun q _ => rfl)

/-! ## FOFA collector (`collectors/fofa.py`) -/

/-- Python `str.lower()` on the character list of a string (domains here are
ASCII, for which `Char.toLower` agrees with Python). -/
def py_lower (s : String) : String := ⟨s.data.map Char.toLower⟩

/-- Python `str.strip()`: drop leading and trailing whitespace. -/
def py_strip (s : String) : String :=
  ⟨((s.data.dropWhile Char.isWhitespace).reverse.dropWhile Char.isWhitespace).reverse⟩

/-- Python `str.startswith`. -/
def py_startswith (s pre : String) : Bool := pre.data.isPrefixOf s.data

/-- Python `str.endswith`. -/
def py_endswith (s suf : String) : Bool := suf.data.isSuffixOf s.data

/-- Drop the first `n` characters of a string. -/
def py_drop (s : String) (n : ℕ) : String := ⟨s.data.drop n⟩

/-- Longest leading run of characters satisfying `p`. -/
def py_takewhile (p : Char → Bool) (s : String) : String := ⟨s.data.takeWhile p⟩

/-- One record of a FOFA API page: `none` models a malformed record (not a
list); `some fields` a list of field values, each possibly JSON `null`. -/
abbrev FofaRecord := Option (List (Option String))

/-- Model of `FofaCollector._extract_domain` (lines 200–218): the regex
`^(?:https?://)?([^/:]+)` with backtracking — first try the remainder after
an `http://` or `https://` scheme; if the host part there is empty,
re-match from the start of the string; the captured host is lower-cased.
`none` models a failed match. -/
def extract_domain (url : String) : Option String :=
  let takeHost : String → Option String := fun s =>
    let h := py_takewhile (fun c => !(c == '/') && !(c == ':')) s
    if h = "" then none else some h
  let candidates : List String :=
    if py_startswith url "https://" then [py_drop url 8, url]
    else if py_startswith url "http://" then [py_drop url 7, url]
    else [url]
  (candidates.findSome? takeHost).map py_lower

/-- Model of `FofaCollector._is_subdomain` (lines 220–242): case-insensitive test
that `domain` equals the target or ends with `.` + target. -/
def is_subdomain (domain target : String) : Bool :=
  let d := py_lower domain
  let t := py_lower target
  d == t || py_endswith d ("." ++ t)

/-- Field access in `FofaCollector.collect` (lines 331–332):
`item[i].strip() if len(item) > i and item[i] else ""` — a missing, null, or
empty field degrades to the empty string; a present field is stripped. -/
def field_str (fields : List (Option String)) (i : ℕ) : String :=
  match fields.get? i with
  | some (some s) => if s = "" then "" else py_strip s
  | _ => ""

/-- The `host` branch of the record loop (lines 335–339): a non-empty host
is passed through `_extract_domain`; the extracted lowercase host is kept
only when in-scope. -/
def host_candidates (target host : String) : Finset String :=
  if host = "" then ∅
  else
    match extract_domain host with
    | some hd => if is_subdomain hd target then {hd} else ∅
    | none => ∅

/-- The `domain` branch of the record loop (lines 342–343): a non-empty
domain field is kept verbatim when in-scope. -/
def domain_candidates (target domainField : String) : Finset String :=
  if domainField ≠ "" ∧ is_subdomain domainField target then {domainField} else ∅

/-- Domains contributed by one record (lines 325–343): malformed records and
records with fewer than two fields are skipped. -/
def record_domains (target : String) (item : FofaRecord) : Finset String :=
  match item with
  | none => ∅
  | some fields =>
    if fields.length < 2 then ∅
    else
      host_candidates target (field_str fields 0) ∪
        domain_candidates target (field_str fields 1)

/-- Domains contributed by one page of records. -/
def page_domains (target : String) (results : List FofaRecord) : Finset String :=
  results.foldl (fun acc item => acc ∪ record_domains target item) ∅

/-- Model of `FofaCollector._get_total_pages` (lines 244–278): zero results abort;
otherwise ceiling-divide the reported total size by the page size and cap at
the configured maximum page count. -/
def get_total_pages (size pageSize maxPages : ℕ) : ℕ :=
  if size = 0 then 0 else min ((size + pageSize - 1) / pageSize) maxPages

/-- The page loop of `FofaCollector.collect` (lines 314–361) restricted to
its fetch-count behaviour: pages are visited in order, and a page with no
results is still processed but breaks the loop. -/
def fetch_count (pages : ℕ → List FofaRecord) : List ℕ → ℕ
  | [] => 0
  | p :: ps => if (pages p).isEmpty then 1 else 1 + fetch_count pages ps

/-- The page loop of `FofaCollector.collect` (lines 314–361) restricted to
its result set: each page's domains are merged into the running set, and a
page with no results breaks the loop after being merged. -/
def collect_pages (target : String) (pages : ℕ → List FofaRecord) :
    List ℕ → Finset String
  | [] => ∅
  | p :: ps =>
    let pd := page_domains target (pages p)
    if (pages p).isEmpty then pd else pd ∪ collect_pages target pages ps

/-- The environment of one `FofaCollector.collect` run: the configured API
key, page size, and maximum page count; the total size reported on page 1;
and the post-retry record list of each page. -/
structure FofaEnv where
  apiKey : String
  pageSize : ℕ
  maxPages : ℕ
  size : ℕ
  pages : ℕ → List FofaRecord

/-- Model of `FofaCollector.collect` (lines 280–380): an unconfigured API key aborts
with the empty set; otherwise the planned page range `1..total_pages` is
traversed with the early-exit page loop. -/
def fofa_collect (env : FofaEnv) (target : String) : Finset String :=
  if env.apiKey = "" then ∅
  else
    collect_pages target env.pages
      (List.range' 1 (get_total_pages env.size env.pageSize env.maxPages))

/-- Number of pages fetched by the page loop of a `collect` run. -/
def fofa_pages_fetched (env : FofaEnv) : ℕ :=
  fetch_count env.pages (List.range' 1 (get_total_pages env.size env.pageSize env.maxPages))

/-- The value of one attempt inside `_fetch_page_with_retry`: either the
attempt raised (`exc`) or it produced a response dict with an `error` flag
and a record list. -/
structure FofaResponse where
  error : Bool
  results : List FofaRecord
deriving DecidableEq

/-- One attempt outcome of `_fetch_page`. -/
inductive FetchAttempt where
  | exc : FetchAttempt
  | resp : FofaResponse → FetchAttempt
deriving DecidableEq

/-- Model of `FofaCollector._fetch_page_with_retry` (lines 64–117) over the sequence
of attempt outcomes (at most `retry_count + 1` of them): an exception is
caught and retried; a response with records is returned; an error-free
response with no records is returned as end-of-results; an error response
with no records is retried; exhausting all attempts returns the empty page
`{'results': []}`. -/
def fetch_page_with_retry : List FetchAttempt → FofaResponse
  | [] => ⟨false, []⟩
  | FetchAttempt.exc :: rest => fetch_page_with_retry rest
  | FetchAttempt.resp r :: rest =>
    if !r.results.isEmpty then r
    else if !r.error then r
    else fetch_page_with_retry rest

/-- The 429 handling of `_fetch_page` (lines 150–169) together with the
non-429 failure branches: given the base retry delay and the current
rate-limit counter, a status-429 response increments the counter and sleeps
`min(retry_delay * 2^count, 300)` seconds before returning; every other
status leaves the counter alone and sleeps no rate-limit cooldown. -/
def fetch_page_status_effect (retryDelay : ℚ) (status : ℕ) (count : ℕ) :
    ℕ × Option ℚ :=
  if status ≠ 200 then
    if status = 429 then
      (count + 1, some (min (retryDelay * 2 ^ (count + 1)) 300))
    else (count, none)
  else (count, none)

/-- A domain in any record's contribution is in-scope in the
case-insensitive sense of `_is_subdomain`. -/
theorem mem_record_domains {target d : String} {item : FofaRecord}
    (h : d ∈ record_domains target item) : is_subdomain d target = true := by
  match item with
  | none => simp [record_domains] at h
  | some fields =>
    simp only [record_domains] at h
    split at h
    · simp at h
    · rcases Finset.mem_union.mp h with hh | hd
      · unfold host_candidates at hh
        split at hh
        · simp at hh
        · split at hh
          · split at hh
            · rw [Finset.mem_singleton.mp hh]; assumption
            · simp at hh
          · simp at hh
      · unfold domain_candidates at hd
        split at hd
        · next hcond => rw [Finset.mem_singleton.mp hd]; exact hcond.2
        · simp at hd

/-- A domain in a page's contribution comes from one of its records. -/
theorem mem_page_domains {target d : String} {results : List FofaRecord}
    (h : d ∈ page_domains target results) :
    ∃ item ∈ results, d ∈ record_domains target item := by
  suffices haux : ∀ (rs : List FofaRecord) (acc : Finset String),
      d ∈ rs.foldl (fun acc item => acc ∪ record_domains target item) acc →
      d ∈ acc ∨ ∃ item ∈ rs, d ∈ record_domains target item by
    rcases haux results ∅ h with habs | hgood
    · simp at habs
    · exact hgood
  intro rs
  induction rs with
  | nil => intro acc hacc; exact Or.inl hacc
  | cons it its ih =>
    intro acc hacc
    rcases ih (acc ∪ record_domains target it) hacc with hmem | ⟨item, hitem, hd'⟩
    · rcases Finset.mem_union.mp hmem with h1 | h2
      · exact Or.inl h1
      · exact Or.inr ⟨it, List.mem_cons_self it its, h2⟩
    · exact Or.inr ⟨item, List.mem_cons_of_mem it hitem, hd'⟩

/-- A domain collected by the page loop comes from one of the visited
pages. -/
theorem mem_collect_pages {target d : String} {pages : ℕ → List FofaRecord}
    {ps : List ℕ} (h : d ∈ collect_pages target pages ps) :
    ∃ p ∈ ps, d ∈ page_domains target (pages p) := by
  induction ps with
  | nil => simp [collect_pages] at h
  | cons p rest ih =>
    simp only [collect_pages] at h
    split at h
    · exact ⟨p, List.mem_cons_self p rest, h⟩
    · rcases Finset.mem_union.mp h with h1 | h2
      · exact ⟨p, List.mem_cons_self p rest, h1⟩
      · rcases ih h2 with ⟨q, hq, hd'⟩
        exact ⟨q, List.mem_cons_of_mem p hq, hd'⟩

/-- C2 (amended): every domain returned by `FofaCollector.collect` is
in-scope in the case-insensitive sense of `_is_subdomain`: its lower-cased
form equals the lower-cased target or ends with `.` + the lower-cased
target.  (Lower-casing of the returned string itself holds only for the
`host`-field branch; the `domain` field is kept verbatim.) -/
theorem fofa_collect_in_scope (env : FofaEnv) (target : String) :
    ∀ d ∈ fofa_collect env target,
      py_lower d = py_lower target ∨
        py_endswith (py_lower d) ("." ++ py_lower target) = true := by
  intro d hd
  unfold fofa_collect at hd
  split at hd
  · simp at hd
  · rcases mem_collect_pages hd with ⟨p, _, hpage⟩
    rcases mem_page_domains hpage with ⟨item, _, hrec⟩
    have hsub := mem_record_domains hrec
    unfold is_subdomain at hsub
    rcases Bool.or_eq_true_iff.mp hsub with he | hs
    · exact Or.inl (by simpa using he)
    · exact Or.inr hs

/-- Closed instance of `fofa_collect_in_scope`: a collected domain kept
verbatim from the `domain` field is in-scope case-insensitively. -/
theorem fofa_collect_in_scope_witness :
    py_lower "SUB.example.com" = py_lower "example.com" ∨
      py_endswith (py_lower "SUB.example.com") ("." ++ py_lower "example.com") = true :=
  fofa_collect_in_scope
    ⟨"key", 100, 50, 1, fun p => if p = 1 then [some [some "", some "SUB.example.com"]] else []⟩
    "example.com" "SUB.example.com" (by decide)

/-- C2 counterexample: the claim that every collected domain is a lowercase
string fails — a record whose `domain` field is `"SUB.example.com"` (target
`example.com`) passes `_is_subdomain` and is added verbatim, without
lower-casing. -/
theorem fofa_collect_lowercase_cex :
    "SUB.example.com" ∈ fofa_collect
      ⟨"key", 100, 50, 1, fun p => if p = 1 then [some [some "", some "SUB.example.com"]] else []⟩
      "example.com" ∧
    py_lower "SUB.example.com" ≠ "SUB.example.com" := by decide

/-- If pages `s, s+1, …, s+k-1` are non-empty and page `s+k` is empty, the
page loop over `s, …, s+n-1` (with `n ≥ k+1`) fetches exactly `k+1` pages. -/
theorem fetch_count_stops (pages : ℕ → List FofaRecord) :
    ∀ (k s n : ℕ), (∀ i, i < k → (pages (s + i)).isEmpty = false) →
    (pages (s + k)).isEmpty = true → k + 1 ≤ n →
    fetch_count pages (List.range' s n) = k + 1 := by
  intro k
  induction k with
  | zero =>
    intro s n hfull hempty hn
    obtain ⟨m, rfl⟩ : ∃ m, n = m + 1 := ⟨n - 1, by omega⟩
    simp only [List.range'_succ, fetch_count]
    rw [if_pos (by simpa using hempty)]
  | succ k ih =>
    intro s n hfull hempty hn
    obtain ⟨m, rfl⟩ : ∃ m, n = m + 1 := ⟨n - 1, by omega⟩
    simp only [List.range'_succ, fetch_count]
    rw [if_neg (by simpa using hfull 0 (Nat.succ_pos k))]
    have hrest : fetch_count pages (List.range' (s + 1) m) = k + 1 := by
      apply ih (s + 1) m
      · intro i hi
        have heq : s + 1 + i = s + (i + 1) := by omega
        rw [heq]
        exact hfull (i + 1) (by omega)
      · have heq : s + 1 + k = s + (k + 1) := by omega
        rw [heq]; exact hempty
      · omega
    omega

/-- If every page in the planned range is non-empty, the page loop fetches
the whole range. -/
theorem fetch_count_full (pages : ℕ → List FofaRecord) :
    ∀ (n s : ℕ), (∀ i, i < n → (pages (s + i)).isEmpty = false) →
    fetch_count pages (List.range' s n) = n := by
  intro n
  induction n with
  | zero => intro s _; rfl
  | succ m ih =>
    intro s hfull
    simp only [List.range'_succ, fetch_count]
    rw [if_neg (by simpa using hfull 0 (Nat.succ_pos m))]
    have hrest : fetch_count pages (List.range' (s + 1) m) = m := by
      apply ih (s + 1)
      intro i hi
      have heq : s + 1 + i = s + (i + 1) := by omega
      rw [heq]
      exact hfull (i + 1) (by omega)
    omega

/-- C6 (amended): with pages `1..k` non-empty and page `k+1` empty, the
number of pages fetched by `FofaCollector.collect` depends on the page count
planned from page 1's reported size: when the planned count is at least
`k+1` (in particular when the reported size spans more than `k` pages and
`max_pages > k`), exactly `k+1` pages are fetched — the empty page
short-circuits the rest; but when the reported size yields exactly `k`
planned pages, only `k` pages are fetched and page `k+1` is never
requested. -/
theorem fofa_pagination_short_circuit (env : FofaEnv) (k : ℕ)
    (hfull : ∀ i, i < k → (env.pages (1 + i)).isEmpty = false)
    (hempty : (env.pages (1 + k)).isEmpty = true) :
    (k + 1 ≤ get_total_pages env.size env.pageSize env.maxPages →
      fofa_pages_fetched env = k + 1) ∧
    (get_total_pages env.size env.pageSize env.maxPages = k →
      fofa_pages_fetched env = k) := by
  constructor
  · intro hle
    exact fetch_count_stops env.pages k 1 _ hfull hempty hle
  · intro heq
    unfold fofa_pages_fetched
    rw [heq]
    exact fetch_count_full env.pages k 1 (fun i hi => hfull i hi)

/-- Closed instance of `fofa_pagination_short_circuit`: pages 1 and 2 carry
100 records each, page 3 is empty, and the reported size 10000 plans
`min(100, 50) = 50 ≥ 3` pages — exactly 3 pages are fetched. -/
theorem fofa_pagination_short_circuit_witness :
    fofa_pages_fetched
      ⟨"key", 100, 50, 10000,
        fun p => if p ≤ 2 then List.replicate 100 (some [some "x", some "x"]) else []⟩ =
      2 + 1 :=
  (fofa_pagination_short_circuit
    ⟨"key", 100, 50, 10000,
      fun p => if p ≤ 2 then List.replicate 100 (some [some "x", some "x"]) else []⟩
    2 (by decide) (by decide)).1 (by decide)

/-- C6 counterexample: the claim predicts `k+1 = 2` fetched pages for every
API serving `page_size = 100` records on page 1 and none on page 2 under
`max_pages = 50 > 2`; but an API whose page-1 `size` field honestly reports
100 total records makes `_get_total_pages` plan a single page, so the run
fetches exactly 1 page and never requests page 2. -/
theorem fofa_pagination_cex :
    get_total_pages 100 100 50 = 1 ∧
    fofa_pages_fetched
      ⟨"key", 100, 50, 100,
        fun p => if p = 1 then List.replicate 100 (some [some "x", some "x"]) else []⟩ = 1 ∧
    (1 : ℕ) ≠ 1 + 1 := by decide

/-- C7: a missing API key makes `collect` return the empty set immediately,
and a hard failure of every retry attempt makes `_fetch_page_with_retry`
return the empty page `{'results': []}` — in both cases a value is returned,
no exception escapes. -/
theorem fofa_error_containment (env : FofaEnv) (target : String)
    (attempts : List FetchAttempt) :
    (env.apiKey = "" → fofa_collect env target = ∅) ∧
    ((∀ a ∈ attempts, a = FetchAttempt.exc) →
      fetch_page_with_retry attempts = ⟨false, []⟩) := by
  constructor
  · intro h
    simp [fofa_collect, h]
  · intro hall
    induction attempts with
    | nil => rfl
    | cons a rest ih =>
      have ha := hall a (List.mem_cons_self a rest)
      subst ha
      exact ih (fun b hb => hall b (List.mem_cons_of_mem _ hb))

/-- Closed instance of `fofa_error_containment`: an empty API key yields the
empty set, and five raising attempts yield the empty page. -/
theorem fofa_error_containment_witness :
    fofa_collect ⟨"", 100, 50, 100, fun _ => []⟩ "example.com" = ∅ ∧
    fetch_page_with_retry (List.replicate 6 FetchAttempt.exc) = ⟨false, []⟩ := by
  constructor
  · exact (fofa_error_containment ⟨"", 100, 50, 100, fun _ => []⟩ "example.com" []).1 rfl
  · exact (fofa_error_containment ⟨"", 100, 50, 100, fun _ => []⟩ "example.com"
      (List.replicate 6 FetchAttempt.exc)).2 (by decide)

/-- C9: a 429 response increments the rolling rate-limit counter and applies
a cooldown of `retry_delay * 2^count` seconds (with the post-increment
counter), capped at 300 seconds, before the next attempt; any non-429 status
leaves the counter unchanged and applies no rate-limit cooldown. -/
theorem fofa_rate_limit_cooldown (retryDelay : ℚ) (status count : ℕ) :
    (status = 429 →
      fetch_page_status_effect retryDelay status count =
        (count + 1, some (min (retryDelay * 2 ^ (count + 1)) 300)) ∧
      ∀ c : ℚ, (fetch_page_status_effect retryDelay status count).2 = some c →
        c ≤ 300) ∧
    (status ≠ 429 →
      fetch_page_status_effect retryDelay status count = (count, none)) := by
  constructor
  · intro h
    subst h
    refine ⟨by simp [fetch_page_status_effect], ?_⟩
    intro c hc
    simp only [fetch_page_status_effect, if_pos (by norm_num : (429 : ℕ) ≠ 200),
      if_pos rfl] at hc
    rw [← Option.some_inj.mp hc]
    exact min_le_right _ _
  · intro h
    by_cases h200 : status = 200
    · simp [fetch_page_status_effect, h200]
    · simp [fetch_page_status_effect, h200, h]

/-- Closed instance of `fofa_rate_limit_cooldown`: with base delay 2 and
counter 0, a 429 bumps the counter to 1 and schedules a `min(4, 300)` second
cooldown (at most 300 s); a 500 leaves the counter at 0 with no cooldown. -/
theorem fofa_rate_limit_cooldown_witness :
    fetch_page_status_effect 2 429 0 = (1, some (min (2 * 2 ^ (0 + 1)) 300)) ∧
    fetch_page_status_effect 2 500 0 = (0, none) :=
  ⟨((fofa_rate_limit_cooldown 2 429 0).1 rfl).1,
    (fofa_rate_limit_cooldown 2 500 0).2 (by norm_num)⟩

/-! ## Dictionary builder (`cacher/dict_builder.py`) -/

/-- Helper for Python `str.split('.')`: accumulate characters of the current
part (reversed) and cut at every dot. -/
def split_dot_aux : List Char → List Char → List (List Char)
  | [], acc => [acc.reverse]
  | c :: cs, acc =>
    if c = '.' then acc.reverse :: split_dot_aux cs [] else split_dot_aux cs (c :: acc)

/-- Python `s.split('.')` — note `''.split('.') == ['']`. -/
def py_split_dot (s : String) : List String :=
  (split_dot_aux s.data []).map String.mk

/-- Python slice `s[:-n]`: drop the last `n` characters. -/
def py_dropright (s : String) (n : ℕ) : String := ⟨s.data.take (s.data.length - n)⟩

/-- The per-index body of the loop in `DictBuilder._extract_subdomain_prefix`
(lines 85–93): append the `i`-th part when non-empty, and for `i > 0` also
append the pair `parts[i-1] + '.' + parts[i]`. -/
def word_combos (parts : List String) : List String :=
  (List.range parts.length).foldl
    (fun acc i =>
      let acc1 := if parts.getD i "" ≠ "" then acc ++ [parts.getD i ""] else acc
      if 0 < i then acc1 ++ [parts.getD (i - 1) "" ++ "." ++ parts.getD i ""] else acc1)
    []

/-- Model of `DictBuilder._extract_subdomain_prefix` (lines 66–99): a domain ending
in `.` + target has that suffix removed, the remainder is split on dots, and
every non-empty part plus every adjacent pair is extracted; the target
itself and domains outside the target contribute nothing. -/
def extract_subdomain_words (domain target : String) : List String :=
  if py_endswith domain ("." ++ target) then
    word_combos (py_split_dot (py_dropright domain ("." ++ target).data.length))
  else []

/-- Model of `DictBuilder.process_subdomains` (lines 101–130): an empty observation
set leaves the dictionary untouched; otherwise the words extracted from all
observed domains are unioned into the dictionary. -/
def process_subdomains (target : String) (domains : Finset String)
    (dictWords : Finset String) : Finset String :=
  if domains = ∅ then dictWords
  else dictWords ∪ domains.biUnion (fun d => (extract_subdomain_words d target).toFinset)

/-- Splitting a dot-free character list yields the one whole part. -/
theorem split_dot_aux_no_dot (l : List Char) (h : ∀ c ∈ l, c ≠ '.') :
    ∀ acc, split_dot_aux l acc = [acc.reverse ++ l] := by
  induction l with
  | nil => intro acc; simp [split_dot_aux]
  | cons c cs ih =>
    intro acc
    have hc : c ≠ '.' := h c (List.mem_cons_self c cs)
    simp only [split_dot_aux, if_neg hc]
    rw [ih (fun d hd => h d (List.mem_cons_of_mem c hd)) (c :: acc)]
    simp

/-- C3 (amended): the word added by the dictionary builder for each observed
domain is given by `_extract_subdomain_prefix`: (a) a word enters the
dictionary exactly when it is already there or extracted from some observed
domain; (b) a domain `p.target` whose label `p` is non-empty and dot-free
contributes exactly the word `p`, kept verbatim — no case-folding and no
rejection of single-character labels; (c) a domain that does not end in
`.` + target (the bare target included) contributes nothing. -/
theorem dict_builder_extraction (target : String) (domains dict : Finset String) :
    (∀ w, w ∈ process_subdomains target domains dict ↔
      w ∈ dict ∨ ∃ d ∈ domains, w ∈ extract_subdomain_words d target) ∧
    (∀ p : String, p ≠ "" → (∀ c ∈ p.data, c ≠ '.') →
      extract_subdomain_words (p ++ "." ++ target) target = [p]) ∧
    (∀ d : String, py_endswith d ("." ++ target) = false →
      extract_subdomain_words d target = []) := by
  refine ⟨?_, ?_, ?_⟩
  · intro w
    unfold process_subdomains
    split
    · next hempty =>
      subst hempty
      simp
    · simp [Finset.mem_union, Finset.mem_biUnion]
  · intro p hp hnd
    have hdata : (p ++ "." ++ target).data = p.data ++ ("." ++ target).data := by
      simp [String.data_append, List.append_assoc]
    have hsuffix : py_endswith (p ++ "." ++ target) ("." ++ target) = true := by
      unfold py_endswith
      exact (List.isSuffixOf_iff_suffix).mpr ⟨p.data, hdata.symm⟩
    unfold extract_subdomain_words
    rw [if_pos hsuffix]
    have hpre : py_dropright (p ++ "." ++ target) ("." ++ target).data.length = p := by
      unfold py_dropright
      rw [hdata]
      have hlen : (p.data ++ ("." ++ target).data).length - ("." ++ target).data.length =
          p.data.length := by simp
      rw [hlen, List.take_left]
    rw [hpre]
    have hsplit : py_split_dot p = [p] := by
      unfold py_split_dot
      rw [split_dot_aux_no_dot p.data hnd []]
      simp
    rw [hsplit]
    have hrange : List.range 1 = [0] := rfl
    simp [word_combos, hrange, List.foldl, hp]
  · intro d hend
    unfold extract_subdomain_words
    rw [hend]
    simp

/-- Closed instance of `dict_builder_extraction`: the single-character,
upper-case label `A` of `A.example.com` is extracted verbatim, the word
`"A"` enters the dictionary, and the bare target contributes nothing. -/
theorem dict_builder_extraction_witness :
    extract_subdomain_words ("A" ++ "." ++ "example.com") "example.com" = ["A"] ∧
    ("A" ∈ process_subdomains "example.com" {"A.example.com"} ∅ ↔
      "A" ∈ (∅ : Finset String) ∨
        ∃ d ∈ ({"A.example.com"} : Finset String),
          "A" ∈ extract_subdomain_words d "example.com") ∧
    extract_subdomain_words "example.com" "example.com" = [] := by
  refine ⟨(dict_builder_extraction "example.com" {"A.example.com"} ∅).2.1 "A"
      (by decide) (by decide),
    (dict_builder_extraction "example.com" {"A.example.com"} ∅).1 "A",
    (dict_builder_extraction "example.com" {"A.example.com"} ∅).2.2 "example.com"
      (by decide)⟩

/-- C3 counterexample: the claim that only case-folded, multi-character,
single-level labels are added fails — for target `example.com` the builder
adds the verbatim single-character upper-case word `"A"` from
`A.example.com`, and the two-level pair word `"a.b"` from
`a.b.example.com`. -/
theorem dict_builder_cex :
    "A" ∈ process_subdomains "example.com" {"A.example.com"} ∅ ∧
    py_lower "A" ≠ "A" ∧
    "a.b" ∈ process_subdomains "example.com" {"a.b.example.com"} ∅ := by decide

end DeepX
